import Mathlib

/-!
Verification of the TheodoraQ classroom quiz application
(backend/controllers/classController.js, backend/models/Assignment.js,
backend/models/Class.js, backend/utils/quizSubmissionConsumer.js).

The JavaScript request handlers are embedded shallowly: Mongoose documents
become Lean structures, each handler becomes a pure function from the
relevant documents (and request data) to an `Except` of an error or the
updated documents, and JavaScript numbers are modelled as exact rationals.
-/

namespace TheodoraQ

/-! ## String helpers (JS `trim`, `toUpperCase`, `toLowerCase`) -/

/-- Whitespace predicate used by `jsTrim` (models the characters removed by
JavaScript's `String.prototype.trim` for the ASCII range). -/
def isWs (c : Char) : Bool := c.isWhitespace

/-- Remove leading and trailing whitespace from a character list. -/
def trimCharList (l : List Char) : List Char :=
  ((l.dropWhile isWs).reverse.dropWhile isWs).reverse

/-- Model of JavaScript `s.trim()`. -/
def jsTrim (s : String) : String := String.mk (trimCharList s.data)

/-- Model of JavaScript `s.toUpperCase()` (ASCII letters). -/
def jsToUpper (s : String) : String := String.mk (s.data.map Char.toUpper)

/-- Model of JavaScript `s.toLowerCase()` (ASCII letters). -/
def jsToLower (s : String) : String := String.mk (s.data.map Char.toLower)

/-- Splitter for JavaScript `s.split(',')`: accumulates the current
segment (reversed) and starts a new one at every comma, so `"a,,b"`
splits into `["a", "", "b"]` and the empty string into `[""]`. -/
def splitCommaAux (cur : List Char) : List Char → List String
  | [] => [String.mk cur.reverse]
  | c :: rest =>
    if c = ',' then String.mk cur.reverse :: splitCommaAux [] rest
    else splitCommaAux (c :: cur) rest

/-- Model of JavaScript `s.split(',')`. -/
def splitComma (s : String) : List String := splitCommaAux [] s.data

/-- Model of JavaScript `s.trim().toLowerCase()`, the normalisation applied
to short-answer strings in `submitQuiz` (classController.js line 1283). -/
def trimLower (s : String) : String := jsToLower (jsTrim s)

/-! ## Branch extraction from registration numbers

`classController.js` contains two copies of `extractBranch`, one inside
`getCandidateAssignments` (lines 1098-1116, which uppercases the
registration number before matching) and one inside `getSingleAssignment`
(lines 708-727, which only trims it).  Both try the same four regular
expressions in order:

  1. `^\d{2}([A-Z]{2,4})\d+$`   (`22BCE10100` gives `BCE`)
  2. `^\d{4}([A-Z]{2,4})\d+$`   (`2024BCE001` gives `BCE`)
  3. `^([A-Z]{2,4})\d+$`        (`BCE001` gives `BCE`)
  4. `([A-Z]{2,4})`             (first run of 2-4 capitals anywhere)
-/

def isUpperCh (c : Char) : Bool := 'A' ≤ c && c ≤ 'Z'

def isDigitCh (c : Char) : Bool := '0' ≤ c && c ≤ '9'

/-- The anchored pattern `^\d{k}([A-Z]{2,4})\d+$` succeeds exactly when the
string is `k` digits, then a run of 2 to 4 capitals, then one or more
digits; the capture is the capital run.  (Greedy backtracking cannot split
a longer capital run: the group is followed by `\d+`, so the character
after the captured group must be a digit.) -/
def anchoredPat (k : Nat) (cs : List Char) : Option (List Char) :=
  let ds := cs.take k
  let rest := cs.drop k
  if ds.length = k && ds.all isDigitCh then
    let us := rest.takeWhile isUpperCh
    let tail := rest.dropWhile isUpperCh
    if 2 ≤ us.length && us.length ≤ 4 && !tail.isEmpty && tail.all isDigitCh then
      some us
    else none
  else none

/-- The unanchored pattern `([A-Z]{2,4})`: the leftmost position with at
least two consecutive capitals, matched greedily up to four. -/
def floatingPat : List Char → Option (List Char)
  | [] => none
  | [_] => none
  | a :: b :: rest =>
    if isUpperCh a && isUpperCh b then
      some (((a :: b :: rest).takeWhile isUpperCh).take 4)
    else floatingPat (b :: rest)

/-- The four patterns tried in order by both copies of `extractBranch`. -/
def extractBranchCore (cs : List Char) : Option String :=
  match anchoredPat 2 cs with
  | some us => some (String.mk us)
  | none =>
    match anchoredPat 4 cs with
    | some us => some (String.mk us)
    | none =>
      match anchoredPat 0 cs with
      | some us => some (String.mk us)
      | none => (floatingPat cs).map String.mk

/-- `extractBranch` as defined inside `getCandidateAssignments`
(classController.js lines 1098-1116): the registration number is
uppercased and trimmed before the patterns run, and a falsy (empty)
registration number yields `null`. -/
def extractBranchAssignments (registrationNumber : String) : Option String :=
  if registrationNumber = "" then none
  else extractBranchCore (jsTrim (jsToUpper registrationNumber)).data

/-- `extractBranch` as defined inside `getSingleAssignment`
(classController.js lines 708-727): the registration number is only
trimmed, not uppercased, before the patterns run. -/
def extractBranchSingle (registrationNumber : String) : Option String :=
  if registrationNumber = "" then none
  else extractBranchCore (jsTrim registrationNumber).data

/-! ## Subgroup eligibility -/

/-- The filter predicate of `getCandidateAssignments` (classController.js
lines 1122-1149): an empty subgroup admits everyone; a candidate with no
extracted branch is excluded from every restricted assignment; a
comma-separated subgroup is split, trimmed and compared to the uppercased
branch; otherwise the uppercased branch must equal the uppercased
subgroup exactly. -/
def subgroupAllows (subgroup : String) (candidateBranch : Option String) : Bool :=
  if subgroup = "" then true
  else
    match candidateBranch with
    | none => false
    | some b =>
      let sg := jsToUpper subgroup
      if sg.data.contains ',' then
        ((splitComma sg).map jsTrim).contains (jsToUpper b)
      else jsToUpper b = sg

/-- The subgroup-restriction part of `getSingleAssignment`
(classController.js lines 694-765), as a boolean: `true` means the
candidate may open the assignment, `false` means the handler answers 403
(subgroup mismatch).  Note that the branch is extracted from the
registration number without uppercasing it first
(`extractBranchSingle`), and that the subgroup is trimmed before being
uppercased. -/
def singleAssignmentSubgroupOk (subgroup : String) (registrationNumber : String) : Bool :=
  if subgroup = "" then true
  else if registrationNumber = "" then false
  else
    match extractBranchSingle registrationNumber with
    | none => false
    | some b =>
      let sg := jsToUpper (jsTrim subgroup)
      if sg.data.contains ',' then
        ((splitComma sg).map jsTrim).contains (jsToUpper b)
      else jsToUpper b = sg

/-- Eligibility rule as the claim states it (a second definition written
from the specification's words, for comparison with the code): the
assignment is visible iff its subgroup is empty, or the branch extracted
from the registration number is, after uppercasing, one of the
comma-separated trimmed entries of the uppercased subgroup, or equals the
uppercased subgroup exactly; a candidate with no branch sees only
unrestricted assignments. -/
def specEligible (subgroup : String) (candidateBranch : Option String) : Bool :=
  if subgroup = "" then true
  else
    match candidateBranch with
    | none => false
    | some b =>
      let sg := jsToUpper subgroup
      if sg.data.contains ',' then
        ((splitComma sg).map jsTrim).contains (jsToUpper b)
      else jsToUpper b = sg

/-! ## Document model

Mongoose documents become Lean structures.  ObjectIds become `String`
(the handlers only ever compare their `toString()` forms), `Date`s become
`Int` (milliseconds), and JavaScript numbers become exact rationals. -/

/-- A quiz question (the `questions` subdocuments of the Quiz model, as
consumed by `submitQuiz` and `getSingleAssignment`). -/
structure Question where
  qid : String
  qtype : String
  text : String
  options : List String
  answer : String
deriving DecidableEq, Repr

/-- The `answerSchema` of Assignment.js (lines 6-19): one graded answer. -/
structure AnswerRecord where
  questionId : String
  selectedAnswer : String
  isCorrect : Bool
deriving DecidableEq, Repr

/-- The submission object built by `submitQuiz` (classController.js lines
1317-1326): the full record as the controller constructs it, anti-cheat
telemetry included. -/
structure Submission where
  candidateId : String
  score : ℚ
  submittedAt : Int
  isLateSubmission : Bool
  tabSwitchCount : ℤ
  escCount : ℤ
  wasFullscreen : Bool
  answers : List AnswerRecord
deriving DecidableEq, Repr

/-- The `submissionSchema` of Assignment.js (lines 22-37): the fields a
submission actually has in the database.  It declares only `candidateId`,
`score`, `submittedAt` and `answers`; there are no paths for
`isLateSubmission`, `tabSwitchCount`, `escCount`, `wasFullscreen` or
`proctoringData`. -/
structure StoredSubmission where
  candidateId : String
  score : ℚ
  submittedAt : Int
  answers : List AnswerRecord
deriving DecidableEq, Repr

/-- Mongoose strict-mode cast of a pushed submission object to the
`submissionSchema` (Assignment.js lines 22-37): schemas are strict by
default, so paths that the schema does not declare are silently dropped
when the document is saved. -/
def castSubmission (s : Submission) : StoredSubmission :=
  { candidateId := s.candidateId
    score := s.score
    submittedAt := s.submittedAt
    answers := s.answers }

/-- The `assignmentSchema` of Assignment.js (lines 39-97), with the quiz
populated (`quizId.questions` is what `submitQuiz` grades against). -/
structure Assignment where
  aid : String
  quizQuestions : List Question
  classId : String
  adminId : String
  subgroup : String
  subclasses : List String
  dueDate : Int
  timeLimit : Int
  weightage : ℚ
  weightageType : String
  proctoringEnabled : Bool
  submissions : List Submission
deriving DecidableEq, Repr

/-- The Class model (backend/models/Class.js): its schema declares
exactly `title`, `courseCode`, `description`, `adminId`, `students`,
`inviteCode` and `isActive` (plus timestamps).  In particular it has no
`allowLateSubmissions` or `showResults` paths, although several handlers
read those properties. -/
structure ClassDoc where
  cid : String
  title : String
  courseCode : String
  description : String
  adminId : String
  students : List String
  inviteCode : String
  isActive : Bool
deriving DecidableEq, Repr

/-- The property read `classData.allowLateSubmissions` (classController.js
lines 794 and 1251).  The Class schema declares no such path, and Mongoose
schemas are strict by default, so no stored class document ever carries
it: the read always evaluates to `undefined`, which is falsy. -/
def ClassDoc.allowLateSubmissions (_ : ClassDoc) : Bool := false

/-- The property read `classData.showResults` (classController.js lines
1159 and 1341).  Like `allowLateSubmissions`, the Class schema declares no
such path, so the read always evaluates to `undefined`, which is falsy. -/
def ClassDoc.showResults (_ : ClassDoc) : Bool := false

/-! ## submitQuiz (classController.js lines 1192-1363) -/

/-- Property access `answers[key]` on the request's answers object: the
keys of a JavaScript object are unique, so the object is modelled as an
association list looked up by first component. -/
def lookupAnswer (answers : List (String × String)) (key : String) : Option String :=
  (answers.find? (·.1 = key)).map (·.2)

/-- The grading loop body of `submitQuiz` (classController.js lines
1273-1309) for one question.  `if (candidateAnswer)` is a JavaScript
truthiness test, so a missing entry and an empty-string entry both take
the no-answer branch and are recorded as incorrect with an empty
`selectedAnswer`.  Short-answer questions compare trimmed lowercased
strings; every other type compares exactly. -/
def gradeQuestion (answers : List (String × String)) (q : Question) : AnswerRecord :=
  match lookupAnswer answers q.qid with
  | some candidateAnswer =>
    if candidateAnswer ≠ "" then
      let isCorrect :=
        if q.qtype = "short_answer" then
          trimLower candidateAnswer = trimLower q.answer
        else
          candidateAnswer = q.answer
      { questionId := q.qid, selectedAnswer := candidateAnswer, isCorrect := isCorrect }
    else
      { questionId := q.qid, selectedAnswer := "", isCorrect := false }
  | none => { questionId := q.qid, selectedAnswer := "", isCorrect := false }

/-- The errors `submitQuiz` can answer with before recording anything
(HTTP 404, 403, 400, 403 respectively). -/
inductive SubmitError where
  | notEnrolled
  | alreadySubmitted
  | lateNotAllowed
deriving DecidableEq, Repr

/-- The JSON body `submitQuiz` sends back on success (classController.js
lines 1345-1353): the score fields are nulled unless the class shows
results. -/
structure SubmitResponse where
  message : String
  score : Option ℚ
  totalQuestions : Option Nat
  correctCount : Option Nat
  showResults : Bool
  isLateSubmission : Bool
deriving DecidableEq, Repr

/-- `Class.findOne({ _id: classId, students: candidateId })`: the class
with the given id that lists the candidate as a student. -/
def findClassEnrolled (classes : List ClassDoc) (classId candidateId : String) :
    Option ClassDoc :=
  classes.find? (fun c => c.cid = classId && c.students.contains candidateId)

/-- `submitQuiz` (classController.js lines 1192-1363) for an assignment
that was found, given the class collection, the candidate, the answers
object, the anti-cheat fields of the request body (already defaulted to
`0`, `0`, `false` by the destructuring on line 1195) and the current
time.  On success it returns the assignment as saved (with the new
submission pushed) and the response body.  The per-question loop
accumulates `score` exactly when the recorded answer is correct, so the
count is taken over the recorded answers. -/
def submitQuiz (classes : List ClassDoc) (assignment : Assignment)
    (candidateId : String) (answers : List (String × String))
    (tabSwitchCount escCount : ℤ) (wasFullscreen : Bool) (now : Int) :
    Except SubmitError (Assignment × SubmitResponse) :=
  match findClassEnrolled classes assignment.classId candidateId with
  | none => .error .notEnrolled
  | some classData =>
    if (assignment.submissions.find? (fun s => s.candidateId = candidateId)).isSome then
      .error .alreadySubmitted
    else
      let isPastDue := now > assignment.dueDate
      let isLateSubmission := isPastDue
      if isPastDue && !classData.allowLateSubmissions then
        .error .lateNotAllowed
      else
        let formattedAnswers := assignment.quizQuestions.map (gradeQuestion answers)
        let score := formattedAnswers.countP (·.isCorrect)
        let totalQuestions := assignment.quizQuestions.length
        let percentageScore : ℚ := ((score : ℚ) / (totalQuestions : ℚ)) * 100
        let submission : Submission :=
          { candidateId := candidateId
            score := percentageScore
            submittedAt := now
            isLateSubmission := isLateSubmission
            tabSwitchCount := tabSwitchCount
            escCount := escCount
            wasFullscreen := wasFullscreen
            answers := formattedAnswers }
        let saved := { assignment with submissions := assignment.submissions ++ [submission] }
        .ok (saved,
          { message :=
              if isLateSubmission then "Late submission recorded successfully!"
              else "Quiz submitted successfully!"
            score := if classData.showResults then some percentageScore else none
            totalQuestions := if classData.showResults then some totalQuestions else none
            correctCount := if classData.showResults then some score else none
            showResults := classData.showResults
            isLateSubmission := isLateSubmission })

/-- Grading rule as claim C1 states it (written from the specification's
words): a question with no candidate answer — which, in this application,
the client transmits as the empty string (TakeQuizPage.jsx initialises
every answer to the empty string) — is recorded as incorrect with an
empty `selectedAnswer`; a short-answer question is correct iff the
trimmed lowercased strings agree; any other type is correct iff the
strings agree exactly. -/
def specGrade (answers : List (String × String)) (q : Question) : AnswerRecord :=
  match lookupAnswer answers q.qid with
  | some candidateAnswer =>
    if candidateAnswer = "" then
      { questionId := q.qid, selectedAnswer := "", isCorrect := false }
    else
      { questionId := q.qid
        selectedAnswer := candidateAnswer
        isCorrect :=
          if q.qtype = "short_answer" then
            trimLower candidateAnswer = trimLower q.answer
          else
            candidateAnswer = q.answer }
  | none => { questionId := q.qid, selectedAnswer := "", isCorrect := false }

/-! ## joinClass (classController.js lines 287-363) -/

/-- The error responses of `joinClass` (HTTP 400, 403, 404, 400). -/
inductive JoinError where
  | inviteCodeRequired
  | notACandidate
  | classNotFound
  | alreadyEnrolled
deriving DecidableEq, Repr

/-- Replace the class with the given id by its updated version; models
`classToJoin.save()` writing the mutated document back to the
collection. -/
def saveClass (classes : List ClassDoc) (updated : ClassDoc) : List ClassDoc :=
  classes.map (fun d => if d.cid = updated.cid then updated else d)

/-- `joinClass` (classController.js lines 287-363).  The request's
`inviteCode` is a string; `if (!inviteCode)` is a truthiness test, so a
missing code and an empty one are both rejected.  Only candidates may
join; `Class.findOne({ inviteCode, isActive: true })` finds the first
active class with that code; a candidate already in its `students` list
is rejected; otherwise the candidate is appended and the class saved. -/
def joinClass (classes : List ClassDoc) (inviteCode : String)
    (candidateId : String) (candidateRole : String) :
    Except JoinError (List ClassDoc) :=
  if inviteCode = "" then .error .inviteCodeRequired
  else if candidateRole ≠ "candidate" then .error .notACandidate
  else
    match classes.find? (fun c => c.inviteCode = inviteCode && c.isActive) with
    | none => .error .classNotFound
    | some classToJoin =>
      if classToJoin.students.contains candidateId then .error .alreadyEnrolled
      else
        .ok (saveClass classes
          { classToJoin with students := classToJoin.students ++ [candidateId] })

/-! ## Admin mutation handlers and their ownership checks -/

/-- Error responses shared by the mutating handlers: 404 when the target
document does not exist, 403 when the requester is not its creator, 400
when the request body fails validation. -/
inductive HandlerError where
  | notFound
  | notAuthorized
  | badRequest
deriving DecidableEq, Repr

/-- Fields of the `updateClass` request body (classController.js lines
170-181); a `none` field was absent from the request body. -/
structure ClassUpdate where
  title : Option String := none
  courseCode : Option String := none
  description : Option String := none
  allowLateSubmissions : Option Bool := none
  showResults : Option Bool := none
deriving Repr

/-- Apply the `updateData` object that `updateClass` builds (lines
203-220) through `findByIdAndUpdate`.  The schema declares only `title`,
`courseCode` and `description` of the updatable keys, and Mongoose strict
mode strips update paths the schema does not declare, so the
`allowLateSubmissions` and `showResults` keys of the request (like
`semester`, `academicYear` and the other undeclared keys) change nothing
in the stored document. -/
def applyClassUpdate (c : ClassDoc) (u : ClassUpdate) : ClassDoc :=
  { c with
    title := u.title.getD c.title
    courseCode := u.courseCode.getD c.courseCode
    description := u.description.getD c.description }

/-- `updateClass` (classController.js lines 167-236): find the class,
check ownership (only the creator recorded in `adminId` may update),
then apply the provided fields. -/
def updateClass (classes : List ClassDoc) (id : String) (u : ClassUpdate)
    (userId : String) : Except HandlerError (List ClassDoc) :=
  match classes.find? (·.cid = id) with
  | none => .error .notFound
  | some classToUpdate =>
    if classToUpdate.adminId ≠ userId then .error .notAuthorized
    else .ok (saveClass classes (applyClassUpdate classToUpdate u))

/-- `deleteClass` (classController.js lines 242-281): find the class,
check ownership, then hard-delete it. -/
def deleteClass (classes : List ClassDoc) (id : String) (userId : String) :
    Except HandlerError (List ClassDoc) :=
  match classes.find? (·.cid = id) with
  | none => .error .notFound
  | some classToDelete =>
    if classToDelete.adminId ≠ userId then .error .notAuthorized
    else .ok (classes.filter (fun c => c.cid ≠ classToDelete.cid))

/-- `removeStudentFromClass` (classController.js lines 369-451): validate
that a `studentId` was supplied (truthiness test, so the empty string is
also rejected), find the class, check ownership, check enrolment, then
remove the student from the class and filter the student's submissions
out of every assignment of the class. -/
def removeStudentFromClass (classes : List ClassDoc) (assignments : List Assignment)
    (id : String) (studentId : String) (adminId : String) :
    Except HandlerError (List ClassDoc × List Assignment) :=
  if studentId = "" then .error .badRequest
  else
    match classes.find? (·.cid = id) with
    | none => .error .notFound
    | some classDoc =>
      if classDoc.adminId ≠ adminId then .error .notAuthorized
      else if !classDoc.students.contains studentId then .error .badRequest
      else
        let classes' := saveClass classes
          { classDoc with students := classDoc.students.filter (fun sid => sid ≠ studentId) }
        let assignments' := assignments.map (fun a =>
          if a.classId = id then
            { a with submissions := a.submissions.filter (fun sub => sub.candidateId ≠ studentId) }
          else a)
        .ok (classes', assignments')

/-- The request body of `updateAssignment` (classController.js line 884);
a `none` field was absent.  The due date is modelled as an already-valid
timestamp (the handler only rejects strings `new Date` cannot parse,
which the embedding does not represent). -/
structure AssignmentUpdate where
  dueDate : Option Int := none
  timeLimit : Option Int := none
  weightage : Option ℚ := none
  weightageType : Option String := none
  allowRetake : Option Bool := none
  subgroup : Option String := none
  proctoringEnabled : Option Bool := none
deriving Repr

/-- Replace the assignment with the given id by its updated version
(models `assignment.save()`). -/
def saveAssignment (assignments : List Assignment) (updated : Assignment) :
    List Assignment :=
  assignments.map (fun a => if a.aid = updated.aid then updated else a)

/-- `updateAssignment` (classController.js lines 881-1002): find the
assignment, check ownership, validate each provided field in source
order (positive time limit; positive weightage, at most 100 when the
request's `weightageType` is `percentage`; `weightageType` must be
`percentage` or `marks`), apply the provided fields (the subgroup is
trimmed), and clear all submissions when `allowRetake` is exactly
`true`. -/
def updateAssignment (assignments : List Assignment) (id : String)
    (u : AssignmentUpdate) (adminId : String) :
    Except HandlerError (List Assignment) :=
  match assignments.find? (·.aid = id) with
  | none => .error .notFound
  | some assignment =>
    if assignment.adminId ≠ adminId then .error .notAuthorized
    else if (u.timeLimit.map (fun t => decide (t ≤ 0))).getD false then .error .badRequest
    else if (u.weightage.map (fun w => decide (w ≤ 0))).getD false then .error .badRequest
    else if (u.weightage.map (fun w => u.weightageType = some "percentage" && decide (w > 100))).getD false then
      .error .badRequest
    else if (u.weightageType.map (fun t => t ≠ "percentage" && t ≠ "marks")).getD false then
      .error .badRequest
    else
      let updated :=
        { assignment with
          dueDate := u.dueDate.getD assignment.dueDate
          timeLimit := u.timeLimit.getD assignment.timeLimit
          weightage := u.weightage.getD assignment.weightage
          weightageType := u.weightageType.getD assignment.weightageType
          subgroup := (u.subgroup.map jsTrim).getD assignment.subgroup
          proctoringEnabled := u.proctoringEnabled.getD assignment.proctoringEnabled }
      let updated :=
        if u.allowRetake = some true then { updated with submissions := [] }
        else updated
      .ok (saveAssignment assignments updated)

/-- `deleteAssignment` (classController.js lines 1008-1048): find the
assignment, check ownership, then delete it. -/
def deleteAssignment (assignments : List Assignment) (id : String)
    (adminId : String) : Except HandlerError (List Assignment) :=
  match assignments.find? (·.aid = id) with
  | none => .error .notFound
  | some assignment =>
    if assignment.adminId ≠ adminId then .error .notAuthorized
    else .ok (assignments.filter (fun a => a.aid ≠ assignment.aid))

/-- The assignment document `createAssignment` constructs
(classController.js lines 575-586): submissions start empty. -/
def createAssignmentDoc (aid : String) (questions : List Question)
    (classId adminId : String) (dueDate : Int) (timeLimit : Int)
    (weightage : ℚ) (weightageType : String) (subgroup : String)
    (subclasses : List String) : Assignment :=
  { aid := aid
    quizQuestions := questions
    classId := classId
    adminId := adminId
    subgroup := subgroup
    subclasses := subclasses
    dueDate := dueDate
    timeLimit := timeLimit
    weightage := weightage
    weightageType := weightageType
    proctoringEnabled := false
    submissions := [] }

/-! ## getCandidateAssignments filtering (classController.js lines 1054-1186) -/

/-- The subgroup filter of `getCandidateAssignments` (lines 1118-1149):
the candidate's branch is extracted once from the registration number
(empty when the candidate has none) and each assignment is kept iff
`subgroupAllows` admits it. -/
def filterAssignmentsForCandidate (assignments : List Assignment)
    (candidateReg : String) : List Assignment :=
  let candidateBranch := extractBranchAssignments candidateReg
  assignments.filter (fun a => subgroupAllows a.subgroup candidateBranch)

/-! ## getClassResults weightage conversion (classController.js lines 1582-1707) -/

/-- The weightage-to-marks conversion of `getClassResults` (lines
1643-1653): the `percentage` branch computes `percentage * weightage /
100`, the `marks` branch `(percentage / 100) * weightage`. -/
def marksObtained (weightageType : String) (percentage weightage : ℚ) : ℚ :=
  if weightageType = "percentage" then (percentage * weightage) / 100
  else (percentage / 100) * weightage

/-- One row of the `allSubmissions` array built by `getClassResults`
(lines 1658-1669), for a submission of an assignment with the given
current weightage data. -/
structure ResultRow where
  quizTitle : String
  candidateId : String
  totalQuestions : Nat
  percentage : ℚ
  marks : ℚ
  weightage : ℚ
  weightageType : String
  submittedAt : Int
deriving DecidableEq, Repr

/-- Build one result row from a stored submission (classController.js
lines 1638-1669): the stored score is already a percentage, and the
marks are computed by `marksObtained` from the assignment's current
weightage and weightage type. -/
def classResultRow (quizTitle : String) (weightage : ℚ) (weightageType : String)
    (totalQuestions : Nat) (sub : StoredSubmission) : ResultRow :=
  { quizTitle := quizTitle
    candidateId := sub.candidateId
    totalQuestions := totalQuestions
    percentage := sub.score
    marks := marksObtained weightageType sub.score weightage
    weightage := weightage
    weightageType := weightageType
    submittedAt := sub.submittedAt }

/-! ## getSingleAssignment question payload (classController.js lines 767-781) -/

/-- A question as sent to the candidate: the destructuring
`const (answer, ...questionWithoutAnswer) = q` keeps every field except
`answer`. -/
structure CandidateQuestion where
  qid : String
  qtype : String
  text : String
  options : List String
deriving DecidableEq, Repr

/-- Drop the `answer` field of a question, keeping the rest. -/
def stripAnswer (q : Question) : CandidateQuestion :=
  { qid := q.qid, qtype := q.qtype, text := q.text, options := q.options }

/-- One step of the in-place Fisher-Yates shuffle (lines 770-776):
`[array[i], array[j]] = [array[j], array[i]]`.  When either index is out
of range the list is returned unchanged (in the source `j` is always in
range because `Math.random()` is below one). -/
def swapIdx (l : List α) (i j : Nat) : List α :=
  match l[i]?, l[j]? with
  | some x, some y => (l.set i y).set j x
  | _, _ => l

/-- The loop of `shuffle` (lines 771-774): `for (let i = length - 1;
i > 0; i--)` swaps index `i` with `j = Math.floor(Math.random() * (i +
1))`.  The random draws are abstracted into the function `rand`, so the
theorems quantify over every possible sequence of draws. -/
def shuffleSteps (rand : Nat → Nat) : Nat → List α → List α
  | 0, l => l
  | i + 1, l => shuffleSteps rand i (swapIdx l (i + 1) (rand (i + 1)))

/-- The `shuffle` helper of `getSingleAssignment` (lines 770-776). -/
def shuffle (rand : Nat → Nat) (l : List α) : List α :=
  shuffleSteps rand (l.length - 1) l

/-- The questions payload `getSingleAssignment` sends to the candidate
(lines 777-781): shuffle a copy of the quiz's questions, then map each
one to its answer-free projection. -/
def questionsForCandidate (rand : Nat → Nat) (questions : List Question) :
    List CandidateQuestion :=
  (shuffle rand questions).map stripAnswer

/-! ## Quiz-submission Kafka consumer (utils/quizSubmissionConsumer.js) -/

/-- The application state a message handler could touch. -/
structure AppState where
  classes : List ClassDoc
  assignments : List Assignment
deriving Repr

/-- Effects a consumer handler can issue: writing a console line, or a
database mutation.  The language can express state changes; the point of
claim C10 is that the quiz-submission handler never issues one. -/
inductive ConsumerEffect where
  | log (line : String)
  | dbWrite (f : AppState → AppState)

/-- The `eachMessage` handler of `startQuizSubmissionConsumer`
(quizSubmissionConsumer.js lines 8-15): it parses the message value and
logs it; the TODO comment marks the absent post-processing.  Its whole
effect list is a single log line. -/
def quizSubmissionEachMessage (messageValue : String) : List ConsumerEffect :=
  [ConsumerEffect.log (String.append "Kafka: Received quiz submission: " messageValue)]

/-- Run a list of effects against the application state. -/
def applyConsumerEffect (s : AppState) : ConsumerEffect → AppState
  | .log _ => s
  | .dbWrite f => f s

/-- Consume a stream of messages on the `quiz-submissions` topic,
applying each handler invocation's effects in order. -/
def runQuizSubmissionConsumer (s : AppState) (messages : List String) : AppState :=
  messages.foldl (fun st m => (quizSubmissionEachMessage m).foldl applyConsumerEffect st) s

/-! ## Invariant of claim C9 -/

/-- An assignment holds at most one submission per candidate. -/
def noDupSubmissions (a : Assignment) : Prop :=
  (a.submissions.map (·.candidateId)).Nodup

/-! ## Concrete documents used by the witness theorems -/

/-- A one-question multiple-choice quiz. -/
def exQuestionMcq : Question :=
  { qid := "q1", qtype := "mcq", text := "2+2?", options := ["3", "4"], answer := "4" }

/-- An assignment of that quiz to class `c1`, due at time 100, with no
subgroup restriction and no submissions yet. -/
def exAssignment : Assignment :=
  { aid := "a1"
    quizQuestions := [exQuestionMcq]
    classId := "c1"
    adminId := "admin1"
    subgroup := ""
    subclasses := []
    dueDate := 100
    timeLimit := 30
    weightage := 20
    weightageType := "percentage"
    proctoringEnabled := false
    submissions := [] }

/-- The same assignment restricted to the `BCE` subgroup. -/
def exAssignmentBCE : Assignment := { exAssignment with subgroup := "BCE" }

/-- A class owned by `admin1` with one enrolled candidate `u1`. -/
def exClass : ClassDoc :=
  { cid := "c1"
    title := "Algebra"
    courseCode := "MAT101"
    description := ""
    adminId := "admin1"
    students := ["u1"]
    inviteCode := "MAT101-ABC123"
    isActive := true }

/-! # Theorems -/

/-- C5: for every submission reported by `getClassResults`, `marksObtained`
equals `percentage * weightage / 100` where the percentage is the stored
submission score; the `percentage` branch and the `marks` branch of the
weightage-to-marks conversion compute equal values for all inputs, so the
result does not depend on `weightageType`.  (JavaScript numbers are
modelled as exact rationals.) -/
theorem getClassResults_marks_conversion :
    (∀ (quizTitle weightageType : String) (weightage : ℚ) (totalQuestions : Nat)
        (sub : StoredSubmission),
      (classResultRow quizTitle weightage weightageType totalQuestions sub).marks
        = sub.score * weightage / 100)
    ∧ (∀ (percentage weightage : ℚ),
        (percentage * weightage) / 100 = (percentage / 100) * weightage)
    ∧ (∀ (t t' : String) (percentage weightage : ℚ),
        marksObtained t percentage weightage = marksObtained t' percentage weightage) := by
  refine ⟨?_, ?_, ?_⟩
  · intro _ wt w _ sub
    simp only [classResultRow, marksObtained]
    split <;> ring
  · intro p w
    ring
  · intro t t' p w
    simp only [marksObtained]
    split <;> split <;> ring

/-- C10: the quiz-submission background consumer performs no real
processing: its `eachMessage` handler only parses and logs the message,
issuing no database mutation, so consuming any stream of messages on the
`quiz-submissions` topic leaves the application state unchanged. -/
theorem quizSubmissionConsumer_no_mutation :
    ∀ (s : AppState) (messages : List String),
      runQuizSubmissionConsumer s messages = s := by
  intro s messages
  induction messages generalizing s with
  | nil => rfl
  | cons m rest ih =>
    simp [runQuizSubmissionConsumer, quizSubmissionEachMessage,
      applyConsumerEffect, List.foldl, ih s]

/-- C4 (code bug): the controller does build the submission object with
the request's anti-cheat telemetry (defaulting to `0`, `0`, `false` when
absent — the destructuring on classController.js line 1195), but the
`submissionSchema` of Assignment.js (lines 22-37) declares no
`tabSwitchCount`, `escCount` or `wasFullscreen` paths, so the strict-mode
cast applied on save drops them: the persisted record of a submission
with telemetry `(3, 2, true)` is identical to the persisted record of
the same submission with no telemetry, and in general the stored
document does not depend on the telemetry at all.  The claim that the
telemetry "is persisted as part of the submission record stored on the
assignment" therefore fails even though `submitQuiz` computes it. -/
theorem submitQuiz_telemetry_not_persisted :
    (∀ (s : Submission) (tab esc : ℤ) (fs : Bool),
        castSubmission { s with tabSwitchCount := tab, escCount := esc, wasFullscreen := fs }
          = castSubmission s)
    ∧ ((submitQuiz [exClass] exAssignment "u1" [("q1", "4")] 3 2 true 50).toOption.map
          (fun p => p.1.submissions.map (fun s => (s.tabSwitchCount, s.escCount, s.wasFullscreen))))
        = some [(3, 2, true)]
    ∧ ((submitQuiz [exClass] exAssignment "u1" [("q1", "4")] 3 2 true 50).toOption.map
          (fun p => p.1.submissions.map castSubmission))
        = ((submitQuiz [exClass] exAssignment "u1" [("q1", "4")] 0 0 false 50).toOption.map
          (fun p => p.1.submissions.map castSubmission)) :=
  ⟨fun _ _ _ _ => rfl, rfl, rfl⟩

/-- The grading loop body of `submitQuiz` coincides with the grading rule
of claim C1, reading "no candidate answer" the way the application
transmits it (a missing or empty entry): both record an unanswered
question as incorrect with an empty `selectedAnswer`, compare
short-answer strings trimmed and lowercased, and compare every other
type exactly. -/
theorem gradeQuestion_eq_specGrade (answers : List (String × String)) (q : Question) :
    gradeQuestion answers q = specGrade answers q := by
  unfold gradeQuestion specGrade
  cases lookupAnswer answers q.qid with
  | none => rfl
  | some ca => by_cases h : ca = "" <;> simp [h]

/-- Inversion of a successful `submitQuiz`: the candidate's class was
found, no earlier submission existed, the saved assignment appends
exactly the submission record the controller builds, and — because the
Class schema gives `allowLateSubmissions` no path, so the flag is always
falsy — the attempt was on time. -/
theorem submitQuiz_ok_elim {classes : List ClassDoc} {assignment : Assignment}
    {candidateId : String} {answers : List (String × String)} {tab esc : ℤ} {fs : Bool}
    {now : Int} {saved : Assignment} {resp : SubmitResponse}
    (h : submitQuiz classes assignment candidateId answers tab esc fs now
      = .ok (saved, resp)) :
    ∃ classData,
      findClassEnrolled classes assignment.classId candidateId = some classData
      ∧ assignment.submissions.find? (fun s => s.candidateId = candidateId) = none
      ∧ saved = { assignment with submissions := assignment.submissions ++
          [{ candidateId := candidateId
             score := (((assignment.quizQuestions.map (gradeQuestion answers)).countP
                 (·.isCorrect) : ℚ) / (assignment.quizQuestions.length : ℚ)) * 100
             submittedAt := now
             isLateSubmission := decide (now > assignment.dueDate)
             tabSwitchCount := tab
             escCount := esc
             wasFullscreen := fs
             answers := assignment.quizQuestions.map (gradeQuestion answers) }] }
      ∧ resp.isLateSubmission = decide (now > assignment.dueDate)
      ∧ ¬ now > assignment.dueDate := by
  unfold submitQuiz at h
  cases hfc : findClassEnrolled classes assignment.classId candidateId with
  | none => rw [hfc] at h; simp at h
  | some c =>
    rw [hfc] at h
    simp only at h
    cases hdup : assignment.submissions.find? (fun s => s.candidateId = candidateId) with
    | some s0 => rw [hdup] at h; simp at h
    | none =>
      rw [hdup] at h
      simp only [Option.isSome_none, Bool.false_eq_true, if_false] at h
      by_cases hpd : now > assignment.dueDate
      · simp [hpd, ClassDoc.allowLateSubmissions] at h
      · simp [hpd] at h
        obtain ⟨h1, h2⟩ := h
        refine ⟨c, rfl, rfl, ?_, ?_, hpd⟩
        · simp [hpd, ← h1]
        · simp [hpd, ← h2]

/-- Construction of a successful `submitQuiz`: an enrolled candidate with
no earlier submission whose attempt is not disallowed as late gets an
`ok` result. -/
theorem submitQuiz_ok_intro {classes : List ClassDoc} {assignment : Assignment}
    {candidateId : String} {now : Int} {c : ClassDoc}
    (answers : List (String × String)) (tab esc : ℤ) (fs : Bool)
    (hfc : findClassEnrolled classes assignment.classId candidateId = some c)
    (hdup : assignment.submissions.find? (fun s => s.candidateId = candidateId) = none)
    (hallow : now > assignment.dueDate → c.allowLateSubmissions = true) :
    ∃ saved resp,
      submitQuiz classes assignment candidateId answers tab esc fs now
        = .ok (saved, resp) := by
  unfold submitQuiz
  rw [hfc]
  simp only
  rw [hdup]
  simp only [Option.isSome_none, Bool.false_eq_true, if_false]
  by_cases hpd : now > assignment.dueDate
  · have hal := hallow hpd
    simp [ClassDoc.allowLateSubmissions] at hal
  · simp [hpd]

/-- C1: for every quiz submission accepted by `submitQuiz`, the stored
record appends one submission whose per-question answers follow the
claimed grading rule (`specGrade`: short answers compared after trimming
and lowercasing both sides, every other type compared exactly, an
unanswered question — transmitted as a missing or empty entry — recorded
as incorrect with an empty `selectedAnswer`), and whose stored score is
(number of correct answers / number of quiz questions) * 100. -/
theorem submitQuiz_score_spec (classes : List ClassDoc) (assignment : Assignment)
    (candidateId : String) (answers : List (String × String)) (tab esc : ℤ) (fs : Bool)
    (now : Int) (saved : Assignment) (resp : SubmitResponse)
    (h : submitQuiz classes assignment candidateId answers tab esc fs now
      = .ok (saved, resp)) :
    ∃ sub : Submission,
      saved.submissions = assignment.submissions ++ [sub]
      ∧ sub.answers = assignment.quizQuestions.map (specGrade answers)
      ∧ sub.score = (((assignment.quizQuestions.map (specGrade answers)).countP
          (·.isCorrect) : ℚ) / (assignment.quizQuestions.length : ℚ)) * 100 := by
  obtain ⟨c, hfc, hdup, hsaved, hresp⟩ := submitQuiz_ok_elim h
  have hg : gradeQuestion answers = specGrade answers :=
    funext (gradeQuestion_eq_specGrade answers)
  subst hsaved
  exact ⟨_, rfl, by simp [hg], by simp [hg]⟩

/-- Witness for C1: the concrete on-time, all-correct submission of `u1`
to the example assignment. -/
theorem submitQuiz_score_spec_witness :
    ∃ saved resp sub,
      submitQuiz [exClass] exAssignment "u1" [("q1", "4")] 0 0 false 50 = .ok (saved, resp)
      ∧ saved.submissions = exAssignment.submissions ++ [sub]
      ∧ sub.answers = exAssignment.quizQuestions.map (specGrade [("q1", "4")])
      ∧ sub.score = (((exAssignment.quizQuestions.map (specGrade [("q1", "4")])).countP
          (·.isCorrect) : ℚ) / (exAssignment.quizQuestions.length : ℚ)) * 100 := by
  have hfc : findClassEnrolled [exClass] exAssignment.classId "u1" = some exClass := rfl
  have hdup : exAssignment.submissions.find? (fun s => s.candidateId = "u1") = none := rfl
  obtain ⟨saved, resp, hE⟩ :=
    submitQuiz_ok_intro [("q1", "4")] 0 0 false hfc hdup
      (fun h : (50 : Int) > exAssignment.dueDate => absurd h (by decide))
  obtain ⟨sub, h1, h2, h3⟩ :=
    submitQuiz_score_spec [exClass] exAssignment "u1" [("q1", "4")] 0 0 false 50 saved resp hE
  exact ⟨saved, resp, sub, hE, h1, h2, h3⟩

/-- C2 (code bug): the claim describes the intended late-submission
policy — `submitQuiz` reads `classData.allowLateSubmissions` (line 1251)
and `updateClass` accepts the flag in its request body — but the Class
schema (Class.js) declares no `allowLateSubmissions` path, so under
Mongoose strict mode no stored class carries the flag, `updateClass`'s
`findByIdAndUpdate` strips the key, the read is always `undefined`
(falsy), and every past-due attempt is rejected: the accept-late branch
of the claim is unreachable, even right after an admin sets the flag.
Moreover `submissionSchema` (Assignment.js lines 22-37) declares no
`isLateSubmission` path, so the flag the controller computes is dropped
on save and no stored record is ever "recorded with isLateSubmission".
What does hold: an attempt on or before the due date is never rejected
for lateness (every accepted submission is on time), and the response —
not the stored record — carries `isLateSubmission` false. -/
theorem submitQuiz_late_policy :
    (∀ c : ClassDoc, c.allowLateSubmissions = false)
    ∧ (∀ (classes : List ClassDoc) (assignment : Assignment) (candidateId : String)
        (answers : List (String × String)) (tab esc : ℤ) (fs : Bool) (now : Int),
        now > assignment.dueDate →
        ∃ e, submitQuiz classes assignment candidateId answers tab esc fs now = .error e)
    ∧ (∀ (classes : List ClassDoc) (assignment : Assignment) (candidateId : String)
        (answers : List (String × String)) (tab esc : ℤ) (fs : Bool) (now : Int)
        (saved : Assignment) (resp : SubmitResponse),
        submitQuiz classes assignment candidateId answers tab esc fs now = .ok (saved, resp) →
        ¬ now > assignment.dueDate ∧ resp.isLateSubmission = false)
    ∧ ((updateClass [exClass] "c1" { allowLateSubmissions := some true } "admin1").toOption.map
        (fun out => submitQuiz out exAssignment "u1" [("q1", "4")] 0 0 false 150)
      = some (.error .lateNotAllowed))
    ∧ (∀ (s : Submission) (b : Bool),
        castSubmission { s with isLateSubmission := b } = castSubmission s) := by
  refine ⟨fun _ => rfl, ?_, ?_, rfl, fun _ _ => rfl⟩
  · intro classes assignment candidateId answers tab esc fs now hpd
    cases hfc : findClassEnrolled classes assignment.classId candidateId with
    | none => exact ⟨.notEnrolled, by unfold submitQuiz; rw [hfc]⟩
    | some c =>
      cases hdup : assignment.submissions.find? (fun s => s.candidateId = candidateId) with
      | some s0 =>
        refine ⟨.alreadySubmitted, ?_⟩
        unfold submitQuiz
        rw [hfc]
        simp only
        rw [hdup]
        simp
      | none =>
        refine ⟨.lateNotAllowed, ?_⟩
        unfold submitQuiz
        rw [hfc]
        simp only
        rw [hdup]
        simp [hpd, ClassDoc.allowLateSubmissions]
  · intro classes assignment candidateId answers tab esc fs now saved resp hE
    obtain ⟨c, _, _, _, hresp, hontime⟩ := submitQuiz_ok_elim hE
    refine ⟨hontime, ?_⟩
    rw [hresp]
    simp [hontime]

/-- Witness for C2: the past-due attempt (time 150, due date 100) on the
example assignment is refused. -/
theorem submitQuiz_late_policy_witness :
    ∃ e, submitQuiz [exClass] exAssignment "u1" [("q1", "4")] 0 0 false 150 = .error e :=
  submitQuiz_late_policy.2.1 [exClass] exAssignment "u1" [("q1", "4")] 0 0 false 150
    (by decide)

/-- A restricted subgroup admits a branchless candidate never, and any
candidate exactly when its subgroup is empty. -/
theorem specEligible_none (sg : String) : specEligible sg none = true ↔ sg = "" := by
  by_cases h : sg = "" <;> simp [specEligible, h]

/-- C3 counterexample: the two endpoints do not apply the same
eligibility rule.  The candidate with registration number `22bce101` is
assigned branch `BCE` by `getCandidateAssignments` (which uppercases the
registration number before matching), so the `BCE`-restricted assignment
is listed for them; but `getSingleAssignment` matches the patterns
against the registration number as typed, extracts no branch from the
all-lowercase string, and rejects the same candidate with a 403
subgroup-mismatch error. -/
theorem branch_eligibility_counterexample :
    extractBranchAssignments "22bce101" = some "BCE"
    ∧ filterAssignmentsForCandidate [exAssignmentBCE] "22bce101" = [exAssignmentBCE]
    ∧ extractBranchSingle "22bce101" = none
    ∧ singleAssignmentSubgroupOk exAssignmentBCE.subgroup "22bce101" = false :=
  ⟨rfl, rfl, rfl, rfl⟩

/-- C3 amended: `getCandidateAssignments` returns exactly the assignments
admitted by the claimed eligibility rule (`specEligible`) applied to the
branch extracted from the uppercased registration number; a candidate
with no branch sees only unrestricted assignments; and
`getSingleAssignment` applies the same comma/exact-match rule but to the
branch extracted from the registration number as typed (trimmed, not
uppercased), for any subgroup in stored (trimmed) form — the schema
declares `subgroup` with `trim: true`. -/
theorem branch_eligibility_rules (assignments : List Assignment) (a : Assignment)
    (reg sg : String) (hsg : jsTrim sg = sg) :
    (a ∈ filterAssignmentsForCandidate assignments reg ↔
      a ∈ assignments ∧ specEligible a.subgroup (extractBranchAssignments reg) = true)
    ∧ (extractBranchAssignments reg = none →
        (a ∈ filterAssignmentsForCandidate assignments reg ↔
          a ∈ assignments ∧ a.subgroup = ""))
    ∧ singleAssignmentSubgroupOk sg reg = specEligible sg (extractBranchSingle reg) := by
  have hcode : ∀ s b, subgroupAllows s b = specEligible s b := fun _ _ => rfl
  refine ⟨?_, ?_, ?_⟩
  · simp [filterAssignmentsForCandidate, List.mem_filter, hcode]
  · intro hnone
    simp [filterAssignmentsForCandidate, List.mem_filter, hcode, hnone, specEligible_none]
  · by_cases h1 : sg = ""
    · simp [singleAssignmentSubgroupOk, specEligible, h1]
    · by_cases h2 : reg = ""
      · simp [singleAssignmentSubgroupOk, specEligible, extractBranchSingle, h1, h2]
      · cases hb : extractBranchSingle reg with
        | none => simp [singleAssignmentSubgroupOk, specEligible, h1, h2, hb]
        | some b => simp [singleAssignmentSubgroupOk, specEligible, h1, h2, hb, hsg]

/-- Witness for the amended C3: candidate `22BCE101` and subgroup
`BCE`. -/
theorem branch_eligibility_rules_witness :
    (exAssignmentBCE ∈ filterAssignmentsForCandidate [exAssignmentBCE] "22BCE101" ↔
      exAssignmentBCE ∈ [exAssignmentBCE]
        ∧ specEligible exAssignmentBCE.subgroup (extractBranchAssignments "22BCE101") = true)
    ∧ (extractBranchAssignments "22BCE101" = none →
        (exAssignmentBCE ∈ filterAssignmentsForCandidate [exAssignmentBCE] "22BCE101" ↔
          exAssignmentBCE ∈ [exAssignmentBCE] ∧ exAssignmentBCE.subgroup = ""))
    ∧ singleAssignmentSubgroupOk "BCE" "22BCE101"
        = specEligible "BCE" (extractBranchSingle "22BCE101") :=
  branch_eligibility_rules [exAssignmentBCE] exAssignmentBCE "22BCE101" "BCE" rfl

/-- C7: each mutating handler checks ownership right after loading the
target document: when the target exists and the authenticated user's id
differs from its stored `adminId`, `updateClass`, `deleteClass`,
`removeStudentFromClass` (for a well-formed request naming a student),
`updateAssignment` and `deleteAssignment` all fail with the 403
authorization error, returning before any write, so the target document
is unchanged. -/
theorem admin_only_mutations :
    (∀ (classes : List ClassDoc) (id : String) (u : ClassUpdate) (userId : String)
        (c : ClassDoc), classes.find? (·.cid = id) = some c → c.adminId ≠ userId →
      updateClass classes id u userId = .error .notAuthorized)
    ∧ (∀ (classes : List ClassDoc) (id userId : String) (c : ClassDoc),
        classes.find? (·.cid = id) = some c → c.adminId ≠ userId →
      deleteClass classes id userId = .error .notAuthorized)
    ∧ (∀ (classes : List ClassDoc) (assignments : List Assignment)
        (id studentId adminId : String) (c : ClassDoc), studentId ≠ "" →
        classes.find? (·.cid = id) = some c → c.adminId ≠ adminId →
      removeStudentFromClass classes assignments id studentId adminId
        = .error .notAuthorized)
    ∧ (∀ (assignments : List Assignment) (id : String) (u : AssignmentUpdate)
        (adminId : String) (a : Assignment),
        assignments.find? (·.aid = id) = some a → a.adminId ≠ adminId →
      updateAssignment assignments id u adminId = .error .notAuthorized)
    ∧ (∀ (assignments : List Assignment) (id adminId : String) (a : Assignment),
        assignments.find? (·.aid = id) = some a → a.adminId ≠ adminId →
      deleteAssignment assignments id adminId = .error .notAuthorized) := by
  refine ⟨?_, ?_, ?_, ?_, ?_⟩
  · intro classes id u userId c hfind hne
    simp [updateClass, hfind, hne]
  · intro classes id userId c hfind hne
    simp [deleteClass, hfind, hne]
  · intro classes assignments id studentId adminId c hsid hfind hne
    simp [removeStudentFromClass, hsid, hfind, hne]
  · intro assignments id u adminId a hfind hne
    simp [updateAssignment, hfind, hne]
  · intro assignments id adminId a hfind hne
    simp [deleteAssignment, hfind, hne]

/-- Witness for C7: the user `intruder`, who is not `admin1`, is refused
on all five handlers for the example class and assignment. -/
theorem admin_only_mutations_witness :
    updateClass [exClass] "c1" {} "intruder" = .error .notAuthorized
    ∧ deleteClass [exClass] "c1" "intruder" = .error .notAuthorized
    ∧ removeStudentFromClass [exClass] [exAssignment] "c1" "u1" "intruder"
        = .error .notAuthorized
    ∧ updateAssignment [exAssignment] "a1" {} "intruder" = .error .notAuthorized
    ∧ deleteAssignment [exAssignment] "a1" "intruder" = .error .notAuthorized := by
  obtain ⟨h1, h2, h3, h4, h5⟩ := admin_only_mutations
  exact ⟨h1 [exClass] "c1" {} "intruder" exClass rfl (by decide),
    h2 [exClass] "c1" "intruder" exClass rfl (by decide),
    h3 [exClass] [exAssignment] "c1" "u1" "intruder" exClass (by decide) rfl (by decide),
    h4 [exAssignment] "a1" {} "intruder" exAssignment rfl (by decide),
    h5 [exAssignment] "a1" "intruder" exAssignment rfl (by decide)⟩

/-- Every element of the saved collection after `updateAssignment` has
either an emptied submissions list (the `allowRetake` path) or the
submissions list of some pre-existing assignment. -/
theorem updateAssignment_submissions_shape {assignments : List Assignment} {id : String}
    {u : AssignmentUpdate} {adminId : String} {out : List Assignment}
    (hE : updateAssignment assignments id u adminId = .ok out) :
    ∀ a' ∈ out, a'.submissions = [] ∨ ∃ b ∈ assignments, a'.submissions = b.submissions := by
  cases hfind : assignments.find? (fun a => a.aid = id) with
  | none => simp [updateAssignment, hfind] at hE
  | some a0 =>
    have ha0 : a0 ∈ assignments := List.mem_of_find?_eq_some hfind
    unfold updateAssignment at hE
    rw [hfind] at hE
    simp only at hE
    by_cases hA : a0.adminId ≠ adminId
    · simp [hA] at hE
    · rw [if_neg hA] at hE
      by_cases hv1 : ((u.timeLimit.map (fun t => decide (t ≤ 0))).getD false) = true
      · simp [hv1] at hE
      · rw [if_neg hv1] at hE
        by_cases hv2 : ((u.weightage.map (fun w => decide (w ≤ 0))).getD false) = true
        · simp [hv2] at hE
        · rw [if_neg hv2] at hE
          by_cases hv3 : ((u.weightage.map
              (fun w => u.weightageType = some "percentage" && decide (w > 100))).getD false) = true
          · simp [hv3] at hE
          · rw [if_neg hv3] at hE
            by_cases hv4 : ((u.weightageType.map
                (fun t => decide (t ≠ "percentage") && decide (t ≠ "marks"))).getD false) = true
            · rw [if_pos hv4] at hE
              exact absurd hE (by simp)
            · rw [if_neg hv4] at hE
              simp only [Except.ok.injEq] at hE
              subst hE
              intro a' hmem
              unfold saveAssignment at hmem
              obtain ⟨b, hb, hfb⟩ := List.mem_map.mp hmem
              by_cases hr : u.allowRetake = some true
              · rw [if_pos hr] at hfb
                split at hfb
                · left; rw [← hfb]
                · right; exact ⟨b, hb, by rw [← hfb]⟩
              · rw [if_neg hr] at hfb
                split at hfb
                · right; exact ⟨a0, ha0, by rw [← hfb]⟩
                · right; exact ⟨b, hb, by rw [← hfb]⟩

/-- Every assignment after `removeStudentFromClass` keeps its submissions
list or has the removed student's entries filtered out of it. -/
theorem removeStudent_submissions_shape {classes : List ClassDoc}
    {assignments : List Assignment} {id studentId adminId : String}
    {out : List ClassDoc × List Assignment}
    (hE : removeStudentFromClass classes assignments id studentId adminId = .ok out) :
    ∀ a' ∈ out.2, ∃ b ∈ assignments,
      a'.submissions = b.submissions
      ∨ a'.submissions = b.submissions.filter (fun sub => sub.candidateId ≠ studentId) := by
  unfold removeStudentFromClass at hE
  by_cases hsid : studentId = ""
  · rw [if_pos hsid] at hE
    exact absurd hE (by simp)
  · rw [if_neg hsid] at hE
    cases hfind : classes.find? (fun c => c.cid = id) with
    | none => rw [hfind] at hE; exact absurd hE (by simp)
    | some cd =>
      rw [hfind] at hE
      simp only at hE
      by_cases hA : cd.adminId ≠ adminId
      · rw [if_pos hA] at hE
        exact absurd hE (by simp)
      · rw [if_neg hA] at hE
        by_cases hen : (!cd.students.contains studentId) = true
        · rw [if_pos hen] at hE
          exact absurd hE (by simp)
        · rw [if_neg hen] at hE
          simp only [Except.ok.injEq] at hE
          subst hE
          intro a' hmem
          obtain ⟨b, hb, hfb⟩ := List.mem_map.mp hmem
          by_cases hcls : b.classId = id
          · rw [if_pos hcls] at hfb
            exact ⟨b, hb, Or.inr (by rw [← hfb])⟩
          · rw [if_neg hcls] at hfb
            exact ⟨b, hb, Or.inl (by rw [← hfb])⟩

/-- C9: the at-most-one-submission-per-candidate invariant.  `submitQuiz`
preserves it and rejects a candidate who already has a submission (with
a 400 error, returning before any write); `updateAssignment` only keeps
or clears submission lists; `removeStudentFromClass` only filters them;
and `createAssignment` starts them empty — so no reachable assignment
holds two submissions of one candidate. -/
theorem submissions_unique_per_candidate :
    (∀ (classes : List ClassDoc) (assignment : Assignment) (candidateId : String)
        (answers : List (String × String)) (tab esc : ℤ) (fs : Bool) (now : Int)
        (saved : Assignment) (resp : SubmitResponse),
      noDupSubmissions assignment →
      submitQuiz classes assignment candidateId answers tab esc fs now = .ok (saved, resp) →
      noDupSubmissions saved)
    ∧ (∀ (classes : List ClassDoc) (assignment : Assignment) (candidateId : String)
        (answers : List (String × String)) (tab esc : ℤ) (fs : Bool) (now : Int)
        (sub : Submission) (c : ClassDoc),
      sub ∈ assignment.submissions → sub.candidateId = candidateId →
      findClassEnrolled classes assignment.classId candidateId = some c →
      submitQuiz classes assignment candidateId answers tab esc fs now
        = .error .alreadySubmitted)
    ∧ (∀ (assignments : List Assignment) (id : String) (u : AssignmentUpdate)
        (adminId : String) (out : List Assignment),
      (∀ a ∈ assignments, noDupSubmissions a) →
      updateAssignment assignments id u adminId = .ok out →
      ∀ a' ∈ out, noDupSubmissions a')
    ∧ (∀ (classes : List ClassDoc) (assignments : List Assignment)
        (id studentId adminId : String) (out : List ClassDoc × List Assignment),
      (∀ a ∈ assignments, noDupSubmissions a) →
      removeStudentFromClass classes assignments id studentId adminId = .ok out →
      ∀ a' ∈ out.2, noDupSubmissions a')
    ∧ (∀ (aid : String) (questions : List Question) (classId adminId : String)
        (dueDate timeLimit : Int) (w : ℚ) (wt sg : String) (scl : List String),
      noDupSubmissions
        (createAssignmentDoc aid questions classId adminId dueDate timeLimit w wt sg scl)) := by
  refine ⟨?_, ?_, ?_, ?_, ?_⟩
  · intro classes assignment candidateId answers tab esc fs now saved resp hnd hE
    obtain ⟨c, hfc, hdup, hsaved, _⟩ := submitQuiz_ok_elim hE
    subst hsaved
    unfold noDupSubmissions at hnd ⊢
    rw [List.map_append, List.nodup_append]
    refine ⟨hnd, List.nodup_singleton _, ?_⟩
    intro x hx hx'
    simp only [List.map_cons, List.map_nil, List.mem_singleton] at hx'
    obtain ⟨s, hs, hsc⟩ := List.mem_map.mp hx
    rw [List.find?_eq_none] at hdup
    apply hdup s hs
    simp [hsc, hx']
  · intro classes assignment candidateId answers tab esc fs now sub c hmem hcid hfc
    have hsome : (assignment.submissions.find?
        (fun s => s.candidateId = candidateId)).isSome = true :=
      List.find?_isSome.mpr ⟨sub, hmem, by simp [hcid]⟩
    unfold submitQuiz
    rw [hfc]
    simp only
    rw [if_pos hsome]
  · intro assignments id u adminId out hall hE a' hmem
    rcases updateAssignment_submissions_shape hE a' hmem with h0 | ⟨b, hb, hsub⟩
    · unfold noDupSubmissions
      rw [h0]
      simp
    · unfold noDupSubmissions
      rw [hsub]
      exact hall b hb
  · intro classes assignments id studentId adminId out hall hE a' hmem
    rcases removeStudent_submissions_shape hE a' hmem with ⟨b, hb, h | h⟩
    · unfold noDupSubmissions
      rw [h]
      exact hall b hb
    · unfold noDupSubmissions
      rw [h]
      exact List.Nodup.sublist ((List.filter_sublist _).map _) (hall b hb)
  · intro aid questions classId adminId dueDate timeLimit w wt sg scl
    unfold noDupSubmissions createAssignmentDoc
    simp

/-- Witness for C9: the accepted example submission keeps the invariant. -/
theorem submissions_unique_per_candidate_witness :
    ∃ saved resp,
      submitQuiz [exClass] exAssignment "u1" [("q1", "4")] 0 0 false 50 = .ok (saved, resp)
      ∧ noDupSubmissions saved := by
  have hfc : findClassEnrolled [exClass] exAssignment.classId "u1" = some exClass := rfl
  have hdup : exAssignment.submissions.find? (fun s => s.candidateId = "u1") = none := rfl
  obtain ⟨saved, resp, hE⟩ :=
    submitQuiz_ok_intro [("q1", "4")] 0 0 false hfc hdup
      (fun h : (50 : Int) > exAssignment.dueDate => absurd h (by decide))
  exact ⟨saved, resp, hE,
    submissions_unique_per_candidate.1 [exClass] exAssignment "u1" [("q1", "4")] 0 0 false 50
      saved resp (by simp [noDupSubmissions, exAssignment]) hE⟩

/-- The first element found does not change when the predicate is
replaced by one that agrees on every element of the list. -/
theorem find?_congrOn {α : Type} {p q : α → Bool} {l : List α}
    (h : ∀ a ∈ l, p a = q a) : l.find? p = l.find? q := by
  induction l with
  | nil => rfl
  | cons a t ih =>
    rw [List.find?_cons, List.find?_cons, h a (List.mem_cons_self a t)]
    split
    · rfl
    · exact ih (fun x hx => h x (List.mem_cons_of_mem a hx))

/-- C6: `joinClass` adds the requesting user to a class's students list
exactly when a (non-empty) invite code was supplied, the user's role is
`candidate`, an active class with that code exists, and the user is not
already among its students; the saved state updates exactly that class
by appending the candidate (every error path returns before
`classToJoin.save()`, leaving every class unchanged), and a second join
with the same code by the same candidate is then rejected as already
enrolled.  The hypothesis that invite codes are pairwise distinct is the
`unique: true` constraint of the Class schema. -/
theorem joinClass_spec (classes : List ClassDoc) (inviteCode candidateId role : String)
    (hCodes : (classes.map (·.inviteCode)).Nodup) :
    ((∃ out, joinClass classes inviteCode candidateId role = .ok out) ↔
      inviteCode ≠ "" ∧ role = "candidate"
        ∧ ∃ c ∈ classes, c.inviteCode = inviteCode ∧ c.isActive = true
            ∧ candidateId ∉ c.students)
    ∧ (∀ out, joinClass classes inviteCode candidateId role = .ok out →
        ∃ c ∈ classes, c.inviteCode = inviteCode ∧ c.isActive = true
          ∧ candidateId ∉ c.students
          ∧ out = saveClass classes { c with students := c.students ++ [candidateId] }
          ∧ joinClass out inviteCode candidateId role = .error .alreadyEnrolled) := by
  constructor
  · constructor
    · rintro ⟨out, hE⟩
      unfold joinClass at hE
      by_cases h1 : inviteCode = ""
      · rw [if_pos h1] at hE; exact absurd hE (by simp)
      · rw [if_neg h1] at hE
        by_cases h2 : role ≠ "candidate"
        · rw [if_pos h2] at hE; exact absurd hE (by simp)
        · rw [if_neg h2] at hE
          cases hfind : classes.find? (fun c => c.inviteCode = inviteCode && c.isActive) with
          | none => rw [hfind] at hE; exact absurd hE (by simp)
          | some c =>
            rw [hfind] at hE
            simp only at hE
            by_cases hmemb : c.students.contains candidateId = true
            · rw [if_pos hmemb] at hE; exact absurd hE (by simp)
            · have hp := List.find?_some hfind
              simp only [Bool.and_eq_true, decide_eq_true_eq] at hp
              exact ⟨h1, not_ne_iff.mp h2, c, List.mem_of_find?_eq_some hfind,
                hp.1, hp.2, fun hm => hmemb (List.elem_iff.mpr hm)⟩
    · rintro ⟨h1, h2, c, hc, hcode, hact, hnm⟩
      unfold joinClass
      rw [if_neg h1, if_neg (by simp [h2])]
      have hsome : (classes.find? (fun c => c.inviteCode = inviteCode && c.isActive)).isSome
          = true :=
        List.find?_isSome.mpr ⟨c, hc, by simp [hcode, hact]⟩
      cases hfind : classes.find? (fun c => c.inviteCode = inviteCode && c.isActive) with
      | none => rw [hfind] at hsome; simp at hsome
      | some c' =>
        simp only
        have hp := List.find?_some hfind
        simp only [Bool.and_eq_true, decide_eq_true_eq] at hp
        have hcc : c' = c :=
          List.inj_on_of_nodup_map hCodes (List.mem_of_find?_eq_some hfind) hc
            (by rw [hp.1, hcode])
        subst hcc
        rw [if_neg (fun hm => hnm (List.elem_iff.mp hm))]
        exact ⟨_, rfl⟩
  · intro out hE
    unfold joinClass at hE
    by_cases h1 : inviteCode = ""
    · rw [if_pos h1] at hE; exact absurd hE (by simp)
    · rw [if_neg h1] at hE
      by_cases h2 : role ≠ "candidate"
      · rw [if_pos h2] at hE; exact absurd hE (by simp)
      · rw [if_neg h2] at hE
        cases hfind : classes.find? (fun c => c.inviteCode = inviteCode && c.isActive) with
        | none => rw [hfind] at hE; exact absurd hE (by simp)
        | some c =>
          rw [hfind] at hE
          simp only at hE
          by_cases hmemb : c.students.contains candidateId = true
          · rw [if_pos hmemb] at hE; exact absurd hE (by simp)
          · rw [if_neg hmemb] at hE
            simp only [Except.ok.injEq] at hE
            have hp := List.find?_some hfind
            simp only [Bool.and_eq_true, decide_eq_true_eq] at hp
            have hcmem := List.mem_of_find?_eq_some hfind
            refine ⟨c, hcmem, hp.1, hp.2, fun hm => hmemb (List.elem_iff.mpr hm),
              hE.symm, ?_⟩
            subst hE
            unfold joinClass
            rw [if_neg h1, if_neg h2]
            set cNew : ClassDoc := { c with students := c.students ++ [candidateId] } with hcNew
            set g : ClassDoc → ClassDoc :=
              (fun d => if d.cid = cNew.cid then cNew else d) with hg
            set p : ClassDoc → Bool :=
              (fun x : ClassDoc => x.inviteCode = inviteCode && x.isActive) with hpdef
            set q : ClassDoc → Bool :=
              (fun d : ClassDoc => decide (d.cid = c.cid) || p d) with hq
            have hgp : ∀ d ∈ classes, (p ∘ g) d = q d := by
              intro d _
              by_cases hdc : d.cid = c.cid
              · simp [hg, hq, hpdef, hcNew, hdc, hp.1, hp.2]
              · simp [hg, hq, hpdef, hcNew, hdc]
            have hfm : (saveClass classes cNew).find? p = some cNew := by
              unfold saveClass
              rw [List.find?_map, find?_congrOn hgp]
              have hqsome : (classes.find? q).isSome = true :=
                List.find?_isSome.mpr ⟨c, hcmem, by simp [hq]⟩
              cases hfq : classes.find? q with
              | none => rw [hfq] at hqsome; simp at hqsome
              | some d₀ =>
                have hqd := List.find?_some hfq
                have hd₀mem := List.mem_of_find?_eq_some hfq
                have hcid : d₀.cid = c.cid := by
                  rw [hq] at hqd
                  simp only [Bool.or_eq_true, decide_eq_true_eq] at hqd
                  rcases hqd with h | hpd
                  · exact h
                  · have hd₀c : d₀ = c := by
                      rw [hpdef] at hpd
                      simp only [Bool.and_eq_true, decide_eq_true_eq] at hpd
                      exact List.inj_on_of_nodup_map hCodes hd₀mem hcmem
                        (by rw [hpd.1, hp.1])
                    rw [hd₀c]
                simp [hcid]
            rw [hfm]
            simp only
            rw [if_pos (List.elem_iff.mpr (by simp [hcNew]))]

/-- Witness for C6: candidate `u2` joins the example class with its
invite code; the characterisation instantiates and a repeat join is
refused. -/
theorem joinClass_spec_witness :
    ((∃ out, joinClass [exClass] "MAT101-ABC123" "u2" "candidate" = .ok out) ↔
      "MAT101-ABC123" ≠ "" ∧ "candidate" = "candidate"
        ∧ ∃ c ∈ [exClass], c.inviteCode = "MAT101-ABC123" ∧ c.isActive = true
            ∧ "u2" ∉ c.students)
    ∧ (∀ out, joinClass [exClass] "MAT101-ABC123" "u2" "candidate" = .ok out →
        ∃ c ∈ [exClass], c.inviteCode = "MAT101-ABC123" ∧ c.isActive = true
          ∧ "u2" ∉ c.students
          ∧ out = saveClass [exClass] { c with students := c.students ++ ["u2"] }
          ∧ joinClass out "MAT101-ABC123" "u2" "candidate" = .error .alreadyEnrolled) :=
  joinClass_spec [exClass] "MAT101-ABC123" "u2" "candidate" (by decide)

/-- Moving the element at index `j` to the front while writing `a` into
its place permutes `a` onto the front. -/
theorem perm_cons_set {α : Type} {t : List α} {j : Nat} {y a : α}
    (h : t[j]? = some y) : (y :: t.set j a).Perm (a :: t) := by
  induction j generalizing t with
  | zero =>
    cases t with
    | nil => simp at h
    | cons b t' =>
      simp only [List.getElem?_cons_zero, Option.some.injEq] at h
      subst h
      exact List.Perm.swap a b t'
  | succ j' ih =>
    cases t with
    | nil => simp at h
    | cons b t' =>
      simp only [List.getElem?_cons_succ] at h
      exact (List.Perm.swap b y (t'.set j' a)).trans (((ih h).cons b).trans
        (List.Perm.swap a b t'))

/-- The two-write form of a swap, `(l.set i y).set j x` with
`x = l[i]` and `y = l[j]`, is a permutation of `l`. -/
theorem set_set_perm {α : Type} (l : List α) (i j : Nat) (x y : α)
    (hx : l[i]? = some x) (hy : l[j]? = some y) :
    ((l.set i y).set j x).Perm l := by
  induction l generalizing i j with
  | nil => simp at hx
  | cons a t ih =>
    match i, j with
    | 0, 0 =>
      simp only [List.getElem?_cons_zero, Option.some.injEq] at hx hy
      subst hx
      exact List.Perm.refl _
    | 0, j' + 1 =>
      simp only [List.getElem?_cons_zero, Option.some.injEq,
        List.getElem?_cons_succ] at hx hy
      subst hx
      exact perm_cons_set hy
    | i' + 1, 0 =>
      simp only [List.getElem?_cons_zero, Option.some.injEq,
        List.getElem?_cons_succ] at hx hy
      subst hy
      exact perm_cons_set hx
    | i' + 1, j' + 1 =>
      simp only [List.getElem?_cons_succ] at hx hy
      exact (ih i' j' hx hy).cons a

/-- One Fisher-Yates swap step permutes the list. -/
theorem swapIdx_perm {α : Type} (l : List α) (i j : Nat) : (swapIdx l i j).Perm l := by
  unfold swapIdx
  cases hx : l[i]? with
  | none => exact List.Perm.refl l
  | some x =>
    cases hy : l[j]? with
    | none => exact List.Perm.refl l
    | some y => exact set_set_perm l i j x y hx hy

/-- A swap step is positional, so it commutes with `map`. -/
theorem map_swapIdx {α β : Type} (f : α → β) (l : List α) (i j : Nat) :
    (swapIdx l i j).map f = swapIdx (l.map f) i j := by
  unfold swapIdx
  cases hx : l[i]? with
  | none => simp [List.getElem?_map, hx]
  | some x =>
    cases hy : l[j]? with
    | none => simp [List.getElem?_map, hx, hy]
    | some y => simp [List.getElem?_map, hx, hy, List.map_set]

/-- The whole shuffle loop permutes the list. -/
theorem shuffleSteps_perm {α : Type} (rand : Nat → Nat) (n : Nat) (l : List α) :
    (shuffleSteps rand n l).Perm l := by
  induction n generalizing l with
  | zero => exact List.Perm.refl l
  | succ n ih =>
    exact (ih (swapIdx l (n + 1) (rand (n + 1)))).trans
      (swapIdx_perm l (n + 1) (rand (n + 1)))

/-- The shuffle loop commutes with `map`. -/
theorem map_shuffleSteps {α β : Type} (f : α → β) (rand : Nat → Nat) (n : Nat)
    (l : List α) : (shuffleSteps rand n l).map f = shuffleSteps rand n (l.map f) := by
  induction n generalizing l with
  | zero => rfl
  | succ n ih =>
    show (shuffleSteps rand n (swapIdx l (n + 1) (rand (n + 1)))).map f = _
    rw [ih, map_swapIdx]
    rfl

/-- `shuffle` produces a permutation of its input, for every sequence of
random draws. -/
theorem shuffle_perm {α : Type} (rand : Nat → Nat) (l : List α) :
    (shuffle rand l).Perm l := shuffleSteps_perm rand (l.length - 1) l

/-- `shuffle` commutes with `map` (its swaps only move positions). -/
theorem map_shuffle {α β : Type} (f : α → β) (rand : Nat → Nat) (l : List α) :
    (shuffle rand l).map f = shuffle rand (l.map f) := by
  unfold shuffle
  rw [map_shuffleSteps, List.length_map]

/-- C8: the questions payload `getSingleAssignment` sends a candidate is
a permutation of the quiz's questions with the `answer` field removed
and the other fields preserved: every sent question is the answer-free
projection of some quiz question, and the payload depends only on the
answer-erased questions — two quizzes that differ solely in their
correct answers produce identical payloads, for every sequence of
random draws, so no sent question contains a correct answer. -/
theorem candidate_questions_no_answers (rand : Nat → Nat) (questions : List Question) :
    (questionsForCandidate rand questions).Perm (questions.map stripAnswer)
    ∧ (∀ cq ∈ questionsForCandidate rand questions, ∃ q ∈ questions, cq = stripAnswer q)
    ∧ (∀ questions₂ : List Question,
        questions.map stripAnswer = questions₂.map stripAnswer →
        questionsForCandidate rand questions = questionsForCandidate rand questions₂) := by
  have hperm : (questionsForCandidate rand questions).Perm (questions.map stripAnswer) :=
    List.Perm.map stripAnswer (shuffle_perm rand questions)
  refine ⟨hperm, ?_, ?_⟩
  · intro cq hcq
    obtain ⟨q, hq, hqe⟩ := List.mem_map.mp (hperm.mem_iff.mp hcq)
    exact ⟨q, hq, hqe.symm⟩
  · intro qs2 heq
    unfold questionsForCandidate
    rw [map_shuffle, map_shuffle, heq]

/-- Witness for C8: changing the example question's correct answer does
not change the payload. -/
theorem candidate_questions_no_answers_witness :
    questionsForCandidate (fun i => i) [exQuestionMcq]
      = questionsForCandidate (fun i => i) [{ exQuestionMcq with answer := "3" }] :=
  (candidate_questions_no_answers (fun i => i) [exQuestionMcq]).2.2
    [{ exQuestionMcq with answer := "3" }] rfl

end TheodoraQ
